import Mathlib

/-!
Verification development for the valshi-x whale-trade alert bot.

The Python sources are shallowly embedded as executable Lean definitions:

* Python strings are modelled as `List Char` (Python `len`, slicing and
  `str.replace` all operate on unicode code points, which coincides with
  `List Char` length and indexing; every emoji used by the bot is a single
  code point).
* Python dictionaries passed to `Trade.__init__` are modelled as a record
  of optional fields (`TradeDict`); `dict.get(key, default)` becomes
  `Option.getD`.
* Python floats are modelled as exact rationals (`ℚ`).  The float
  formatting directives `"%.0f"` / `"%.1f"` round half to even, which is
  modelled exactly by `rhe` below; at every concrete value used in the
  theorems the binary double is exact or far from a tie, so the rational
  model agrees with CPython output.
* Network effects are factored out: the REST/WS responses consumed by a
  function become explicit arguments (a fetched list of trade dicts, a
  market lookup function, an `HttpOutcome`).
-/

/-! ### Python string primitives -/

/-- Boolean test that `p` is an initial segment of `l`; models the scanning
step of Python `str.replace`. -/
def listStartsWith : List Char → List Char → Bool
  | [], _ => true
  | _ :: _, [] => false
  | p :: ps, c :: cs => p == c && listStartsWith ps cs

/-- Recursion core of Python `s.replace(p, r)`: scan left to right and
replace each non-overlapping occurrence of `p`.  Each step consumes at
least one character, so running it with `fuel = l.length` (as `pyReplace`
does) computes the full replacement. -/
def pyReplaceFuel (p r : List Char) : Nat → List Char → List Char
  | 0, l => l
  | _ + 1, [] => []
  | fuel + 1, c :: tl =>
    if listStartsWith p (c :: tl) && !p.isEmpty then
      r ++ pyReplaceFuel p r fuel ((c :: tl).drop p.length)
    else c :: pyReplaceFuel p r fuel tl

/-- Python `s.replace(p, r)` for a nonempty pattern `p`.  (Python treats an
empty pattern specially; the bot only ever calls `replace` with a pattern
of length at least 24.) -/
def pyReplace (p r l : List Char) : List Char := pyReplaceFuel p r l.length l

/-- Python `s.upper()` (per-character upper-casing). -/
def pyUpper (l : List Char) : List Char := l.map Char.toUpper

/-- Python `sep.join(parts)`. -/
def pyJoin (sep : List Char) : List (List Char) → List Char
  | [] => []
  | [x] => x
  | x :: y :: xs => x ++ sep ++ pyJoin sep (y :: xs)

/-! ### Python number formatting -/

/-- Recursion core of decimal rendering: each step peels the last digit,
so `fuel = n + 1` always suffices (the digit count of `n` is at most
`n + 1`). -/
def natCharsFuel : Nat → Nat → List Char
  | 0, _ => []
  | fuel + 1, n =>
    if n < 10 then [Nat.digitChar n]
    else natCharsFuel fuel (n / 10) ++ [Nat.digitChar (n % 10)]

/-- Decimal digits of a natural number, most significant first; models
Python `str(n)` for a non-negative integer. -/
def natChars (n : Nat) : List Char := natCharsFuel (n + 1) n

/-- Recursion core of comma grouping: each step consumes three characters,
so `fuel = l.length` suffices. -/
def group3Fuel : Nat → List Char → List Char
  | 0, l => l
  | fuel + 1, l =>
    if l.length ≤ 3 then l
    else l.take 3 ++ ',' :: group3Fuel fuel (l.drop 3)

/-- Insert a comma after every third character, counting from the start of
the (reversed) digit list; helper for `commaChars`. -/
def group3 (l : List Char) : List Char := group3Fuel l.length l

/-- Python `f"{n:,}"`: decimal digits with thousands separators. -/
def commaChars (n : Nat) : List Char := (group3 (natChars n).reverse).reverse

/-- Round a rational to the nearest integer, ties to even; this is the
rounding applied by CPython `"%.0f"` formatting (and, scaled by ten, by
`"%.1f"`). -/
def rhe (q : ℚ) : ℤ :=
  let f := ⌊q⌋
  if q - f < 1 / 2 then f
  else if 1 / 2 < q - f then f + 1
  else if f % 2 = 0 then f else f + 1

/-- Python `f"{q:.0f}"` for the non-negative values produced by the bot. -/
def pyFormatDot0 (q : ℚ) : List Char := natChars (rhe q).toNat

/-- Python `f"{q:.1f}"` for the non-negative values produced by the bot. -/
def pyFormatDot1 (q : ℚ) : List Char :=
  let n := (rhe (q * 10)).toNat
  natChars (n / 10) ++ '.' :: [Nat.digitChar (n % 10)]

/-! ### trade_monitor.py — Trade and TradeMonitor -/

/-- The dictionary consumed by `Trade.__init__` (REST trade entry, or the
dict produced by the WebSocket normalizer).  A field of value `none` means
the corresponding key is absent. -/
structure TradeDict where
  trade_id? : Option String := none
  ticker? : Option String := none
  side? : Option String := none
  taker_side? : Option String := none
  count? : Option Nat := none
  yes_price? : Option Nat := none
  no_price? : Option Nat := none
  created_time? : Option String := none

/-- The `Trade` object: the stored attributes, including the derived
`value_cents` and `value_dollars`. -/
structure Trade where
  trade_id : String
  ticker : String
  side : String
  count : Nat
  yes_price : Nat
  no_price : Nat
  created_time : String
  value_cents : Nat
  value_dollars : ℚ

/-- `Trade.__init__` (trade_monitor.py lines 10-31): read each key with a
default, then compute the trade value from the side-selected price. -/
def Trade.ofDict (data : TradeDict) : Trade :=
  let side := data.side?.getD ""
  let count := data.count?.getD 0
  let yes_price := data.yes_price?.getD 0
  let no_price := data.no_price?.getD 0
  let value_cents := if side = "yes" then count * yes_price else count * no_price
  { trade_id := data.trade_id?.getD ""
    ticker := data.ticker?.getD ""
    side := side
    count := count
    yes_price := yes_price
    no_price := no_price
    created_time := data.created_time?.getD ""
    value_cents := value_cents
    value_dollars := (value_cents : ℚ) / 100 }

/-- `Trade.is_whale` (trade_monitor.py lines 33-42):
`self.value_dollars >= threshold_dollars`. -/
def Trade.is_whale (t : Trade) (threshold_dollars : ℚ) : Bool :=
  decide (threshold_dollars ≤ t.value_dollars)

/-- Market details dictionary as used by the tweet formatter. -/
structure MarketDict where
  title? : Option String := none

/-- The seen-set compaction used in both trade_monitor.py (lines 127-130)
and bot_websocket.py (lines 111-113): when the set holds more than 10000
ids, keep 5000 of them.  The Python code takes the last 5000 elements of
`list(s)`; the model fixes insertion order as the enumeration order (any
enumeration yields some 5000-element subset, which is all the proofs
rely on). -/
def compact_seen (s : List String) : List String :=
  if 10000 < s.length then s.drop (s.length - 5000) else s

/-- The per-trade loop of `TradeMonitor.find_new_whale_trades`
(trade_monitor.py lines 112-125): skip already-seen ids, mark new ids as
seen, and collect whale trades whose market details resolve.  The market
lookup (`get_market_details`, a read-through cache over the REST client)
is abstracted as a function. -/
def find_loop (threshold : ℚ) (lookup : String → Option MarketDict) :
    List TradeDict → List String → List (Trade × MarketDict) × List String
  | [], seen => ([], seen)
  | d :: rest, seen =>
    let t := Trade.ofDict d
    if t.trade_id ∈ seen then find_loop threshold lookup rest seen
    else
      let out := find_loop threshold lookup rest (seen ++ [t.trade_id])
      let whales :=
        if t.is_whale threshold then
          match lookup t.ticker with
          | some mk => (t, mk) :: out.1
          | none => out.1
        else out.1
      (whales, out.2)

/-- `TradeMonitor.find_new_whale_trades` (trade_monitor.py lines 103-132),
with the fetched trade list passed explicitly: run the loop, then apply
the end-of-cycle compaction to the seen set. -/
def find_new_whale_trades (threshold : ℚ) (lookup : String → Option MarketDict)
    (fetched : List TradeDict) (seen : List String) :
    List (Trade × MarketDict) × List String :=
  let out := find_loop threshold lookup fetched seen
  (out.1, compact_seen out.2)

/-! ### tweet_formatter.py — TweetFormatter -/

/-- `TweetFormatter.format_currency` (tweet_formatter.py lines 9-24). -/
def format_currency (amount : ℚ) : List Char :=
  if 1000000 ≤ amount then '$' :: (pyFormatDot1 (amount / 1000000) ++ ['M'])
  else if 1000 ≤ amount then '$' :: (pyFormatDot0 (amount / 1000) ++ ['K'])
  else '$' :: pyFormatDot0 amount

/-- `TweetFormatter.get_market_url` (tweet_formatter.py lines 26-36). -/
def get_market_url (ticker : List Char) : List Char :=
  "https://kalshi.com/?search=".toList ++ ticker

/-- `TweetFormatter.format_whale_tweet` (tweet_formatter.py lines 38-102):
build the nine-part tweet; if it exceeds 280 characters, truncate the
title with an ellipsis when that leaves more than 20 title characters,
otherwise fall back to the compact four-line rendering. -/
def format_whale_tweet (trade : Trade) (market : MarketDict) : List Char :=
  let title := (market.title?.getD "Unknown Market").toList
  let ticker := trade.ticker.toList
  let side := pyUpper trade.side.toList
  let value := format_currency trade.value_dollars
  let contracts := commaChars trade.count
  let price_cents := if trade.side = "yes" then trade.yes_price else trade.no_price
  let pct := pyFormatDot0 ((price_cents : ℚ) / 100)
  let headline := "🐋 Whale Alert!".toList
  let value_line := value ++ " trade on ".toList ++ title
  let details := "📊 ".toList ++ contracts ++ ' ' :: side ++ " contracts @ ".toList ++
      natChars price_cents ++ "¢ (".toList ++ pct ++ "%)".toList
  let tag_line := "@Kalshi @KalshiEco".toList
  let url := get_market_url ticker
  let tweet := pyJoin ['\n'] [headline, [], value_line, [], details, [], tag_line, [], url]
  if 280 < tweet.length then
    let max_title_len : ℤ := (title.length : ℤ) - ((tweet.length : ℤ) - 280) - 3
    if 20 < max_title_len then
      pyReplace title (title.take max_title_len.toNat ++ "...".toList) tweet
    else
      pyJoin ['\n'] ["🐋 ".toList ++ value ++ " whale trade".toList,
        contracts ++ ' ' :: side ++ " contracts @ ".toList ++ natChars price_cents ++ ['¢'],
        tag_line, url]
  else tweet

/-! ### x_client.py — XClient -/

/-- The text actually transmitted by `XClient.post_tweet`
(x_client.py lines 31-46): over-long text is cut to its first 277
characters plus a literal ellipsis before being sent. -/
def post_tweet_text (text : List Char) : List Char :=
  if 280 < text.length then text.take 277 ++ "...".toList else text

/-! ### websocket_client.py — KalshiWebSocketClient -/

/-- A streaming trade message payload (the `msg` object of a
`type == "trade"` frame), with all wire fields present. -/
structure WsTradeMsg where
  trade_id : String
  market_ticker : String
  taker_side : String
  count : Nat
  yes_price : Nat
  no_price : Nat
  ts : Nat

/-- The normalization in `KalshiWebSocketClient.handle_message`
(websocket_client.py lines 136-153): the produced dict stores the side
under the key `taker_side` and has no key `side`.  The local-timezone
dependent `_timestamp_to_iso` conversion is abstracted as `iso`. -/
def normalize_ws_trade (iso : Nat → String) (m : WsTradeMsg) : TradeDict :=
  { trade_id? := some m.trade_id
    ticker? := some m.market_ticker
    side? := none
    taker_side? := some m.taker_side
    count? := some m.count
    yes_price? := some m.yes_price
    no_price? := some m.no_price
    created_time? := some (iso m.ts) }

/-- Initial `reconnect_delay` (websocket_client.py line 24). -/
def initial_reconnect_delay : Nat := 1

/-- `max_reconnect_delay` (websocket_client.py line 25). -/
def max_reconnect_delay : Nat := 60

/-- The update applied to `reconnect_delay` after a failed connect in
`listen` (websocket_client.py lines 96-99). -/
def fail_update (d : Nat) : Nat := min (d * 2) max_reconnect_delay

/-- The stored `reconnect_delay` after `n` consecutive failed connect
attempts, starting from a fresh client. -/
def delay_after_failures : Nat → Nat
  | 0 => initial_reconnect_delay
  | n + 1 => fail_update (delay_after_failures n)

/-- The reset applied by a successful `connect`
(websocket_client.py line 61). -/
def success_update (_ : Nat) : Nat := 1

/-! ### bot_websocket.py — ValshiXWebSocket -/

/-- `ValshiXWebSocket.handle_trade` (bot_websocket.py lines 78-116), with
the market lookup abstracted: returns the new seen set and the whale
alert (trade and market details) published by this call, if any. -/
def handle_trade (threshold : ℚ) (lookup : String → Option MarketDict)
    (seen : List String) (trade_data : TradeDict) :
    List String × Option (Trade × MarketDict) :=
  let trade_id := trade_data.trade_id?.getD ""
  if trade_id ∈ seen then (seen, none)
  else
    let seen1 := seen ++ [trade_id]
    let t := Trade.ofDict trade_data
    let post :=
      if t.is_whale threshold then (lookup t.ticker).map (fun mk => (t, mk)) else none
    (compact_seen seen1, post)

/-! ### kalshi_client.py — KalshiClient -/

/-- Parsed JSON values (`JVal.null` is Python `None`). -/
inductive JVal where
  | null
  | bool (b : Bool)
  | num (n : Int)
  | str (s : String)
  | arr (elems : List JVal)
  | obj (fields : List (String × JVal))

/-- Association-list lookup for JSON object fields. -/
def JVal.lookupKey : List (String × JVal) → String → Option JVal
  | [], _ => none
  | (k, v) :: rest, key => if k = key then some v else JVal.lookupKey rest key

/-- Python `d.get(key)` on a JSON object (no default). -/
def JVal.getOpt (j : JVal) (key : String) : Option JVal :=
  match j with
  | .obj fields => JVal.lookupKey fields key
  | _ => none

/-- Python `d.get(key, dflt)` on a JSON object. -/
def JVal.getD (j : JVal) (key : String) (dflt : JVal) : JVal :=
  (j.getOpt key).getD dflt

/-- Python truthiness of a parsed JSON value. -/
def JVal.truthy : JVal → Bool
  | .null => false
  | .bool b => b
  | .num n => decide (n ≠ 0)
  | .str s => decide (s ≠ "")
  | .arr elems => !elems.isEmpty
  | .obj fields => !fields.isEmpty

/-- Outcome of the underlying HTTP call in `_make_request`: a response
with some status code and parsed body, or a transport-level exception. -/
inductive HttpOutcome where
  | response (status : Nat) (body : JVal)
  | exn (msg : String)

/-- `KalshiClient._make_request` (kalshi_client.py lines 99-135): the body
on HTTP 200, `None` on any other status or on an exception. -/
def make_request : HttpOutcome → Option JVal
  | .response status body => if status = 200 then some body else none
  | .exn _ => none

/-- `KalshiClient.get_markets` (kalshi_client.py lines 137-153):
`result.get('markets', []) if result else None`. -/
def get_markets (o : HttpOutcome) : Option JVal :=
  match make_request o with
  | some result => if result.truthy then some (result.getD "markets" (.arr [])) else none
  | none => none

/-- `KalshiClient.get_market` (kalshi_client.py lines 155-165):
`result.get('market') if result else None`. -/
def get_market (o : HttpOutcome) : Option JVal :=
  match make_request o with
  | some result => if result.truthy then result.getOpt "market" else none
  | none => none

/-- `KalshiClient.get_trades` (kalshi_client.py lines 167-182):
`result.get('trades', []) if result else None`. -/
def get_trades (o : HttpOutcome) : Option JVal :=
  match make_request o with
  | some result => if result.truthy then some (result.getD "trades" (.arr [])) else none
  | none => none

/-- `KalshiClient.get_orderbook` (kalshi_client.py lines 184-194):
`result if result else None`. -/
def get_orderbook (o : HttpOutcome) : Option JVal :=
  match make_request o with
  | some result => if result.truthy then some result else none
  | none => none

/-! ### Concrete inputs used by the claim theorems -/

/-- The end-to-end regression trade from the spec: ticker FED-24DEC,
side yes, 2000 contracts at 75 cents. -/
def fed_trade_data : TradeDict :=
  { trade_id? := some "t1", ticker? := some "FED-24DEC", side? := some "yes",
    count? := some 2000, yes_price? := some 75 }

/-- A pathological trade record: an astronomically large contract count
(allowed by the data model, which only requires a non-negative integer)
with an empty market title and a 50-character ticker. -/
def big_count_trade_data : TradeDict :=
  { trade_id? := some "t2",
    ticker? := some "TTTTTTTTTTTTTTTTTTTTTTTTTTTTTTTTTTTTTTTTTTTTTTTTTT",
    side? := some "yes", count? := some (10 ^ 70),
    yes_price? := some 75, no_price? := some 25 }

/-- A market record whose title is the empty string. -/
def empty_title_market : MarketDict := { title? := some "" }

/-- A short concrete market record. -/
def fed_market : MarketDict := { title? := some "Fed rate decision in December" }

/-- The whale scenario from the spec: 150000 contracts at 75 cents is a
notional of 112500 dollars. -/
def whale_trade_data : TradeDict :=
  { trade_id? := some "w1", ticker? := some "FED-24DEC", side? := some "yes",
    count? := some 150000, yes_price? := some 75 }

/-- A seen set holding 10001 distinct ids (used to exercise compaction). -/
def big_seen : List String :=
  (List.range 10001).map (fun n => String.mk (List.replicate n 'a'))

/-! ### Lemmas about the Python string primitives -/

theorem listStartsWith_iff (p : List Char) : ∀ l, listStartsWith p l = true ↔ ∃ t, p ++ t = l := by
  induction p with
  | nil => intro l; simp [listStartsWith]
  | cons a ps ih =>
    intro l
    cases l with
    | nil => simp [listStartsWith]
    | cons c cs =>
      simp only [listStartsWith, Bool.and_eq_true, beq_iff_eq, ih]
      constructor
      · rintro ⟨rfl, t, rfl⟩
        exact ⟨t, rfl⟩
      · rintro ⟨t, h⟩
        rw [List.cons_append] at h
        cases h
        exact ⟨rfl, t, rfl⟩

theorem pyReplaceFuel_length_le (p r : List Char) (hr : r.length ≤ p.length) :
    ∀ (fuel : Nat) (l : List Char), (pyReplaceFuel p r fuel l).length ≤ l.length := by
  intro fuel
  induction fuel with
  | zero => intro l; simp [pyReplaceFuel]
  | succ n ih =>
    intro l
    cases l with
    | nil => simp [pyReplaceFuel]
    | cons c tl =>
      rw [pyReplaceFuel]
      by_cases hs : (listStartsWith p (c :: tl) && !p.isEmpty) = true
      · rw [if_pos hs]
        simp only [Bool.and_eq_true, Bool.not_eq_true'] at hs
        have hpl : p.length ≤ (c :: tl).length := by
          obtain ⟨t, ht⟩ := (listStartsWith_iff p (c :: tl)).mp hs.1
          rw [← ht]; simp
        have hppos : 0 < p.length := by
          cases p with
          | nil => simp [List.isEmpty] at hs
          | cons a ps => simp
        have hrec := ih ((c :: tl).drop p.length)
        simp only [List.length_append, List.length_drop, List.length_cons] at *
        omega
      · rw [if_neg hs]
        have hrec := ih tl
        simp only [List.length_cons]
        omega

theorem pyReplaceFuel_length_occ (p r : List Char) (hp : p ≠ []) (hr : r.length ≤ p.length) :
    ∀ (fuel : Nat) (l : List Char), l.length ≤ fuel → (∃ s u, s ++ p ++ u = l) →
      (pyReplaceFuel p r fuel l).length + p.length ≤ l.length + r.length := by
  intro fuel
  induction fuel with
  | zero =>
    intro l hl hocc
    obtain ⟨s, u, rfl⟩ := hocc
    have hppos : 0 < p.length := List.length_pos.mpr hp
    simp only [Nat.le_zero, List.length_append] at hl
    omega
  | succ n ih =>
    intro l hl hocc
    cases l with
    | nil =>
      obtain ⟨s, u, hsu⟩ := hocc
      have := congrArg List.length hsu
      have hppos : 0 < p.length := List.length_pos.mpr hp
      simp only [List.length_append, List.length_nil] at this
      omega
    | cons c tl =>
      rw [pyReplaceFuel]
      by_cases hs : (listStartsWith p (c :: tl) && !p.isEmpty) = true
      · rw [if_pos hs]
        simp only [Bool.and_eq_true, Bool.not_eq_true'] at hs
        have hpl : p.length ≤ (c :: tl).length := by
          obtain ⟨t, ht⟩ := (listStartsWith_iff p (c :: tl)).mp hs.1
          rw [← ht]; simp
        have hrec := pyReplaceFuel_length_le p r hr n ((c :: tl).drop p.length)
        simp only [List.length_append, List.length_drop, List.length_cons] at *
        omega
      · rw [if_neg hs]
        obtain ⟨s, u, hsu⟩ := hocc
        cases s with
        | nil =>
          exfalso
          have hpre : listStartsWith p (c :: tl) = true :=
            (listStartsWith_iff p (c :: tl)).mpr ⟨u, by simpa using hsu⟩
          have hne : p.isEmpty = false := by
            cases p with
            | nil => exact absurd rfl hp
            | cons a ps => rfl
          simp [hpre, hne] at hs
        | cons a s' =>
          have htl : s' ++ p ++ u = tl := by
            rw [List.cons_append, List.cons_append] at hsu
            exact ((List.cons.injEq _ _ _ _).mp hsu).2
          have hrec := ih tl (by simp only [List.length_cons] at hl; omega) ⟨s', u, htl⟩
          simp only [List.length_cons]
          omega

theorem pyReplace_length_le (p r l : List Char) (hr : r.length ≤ p.length) :
    (pyReplace p r l).length ≤ l.length :=
  pyReplaceFuel_length_le p r hr l.length l

theorem pyReplace_length_occ (p r l : List Char) (hp : p ≠ []) (hr : r.length ≤ p.length)
    (hocc : ∃ s u, s ++ p ++ u = l) :
    (pyReplace p r l).length + p.length ≤ l.length + r.length :=
  pyReplaceFuel_length_occ p r hp hr l.length l le_rfl hocc

/-! ### Lemmas about the number formatting primitives -/

theorem natCharsFuel_length_le :
    ∀ (fuel n k : Nat), n < fuel → 0 < k → n < 10 ^ k →
      (natCharsFuel fuel n).length ≤ k := by
  intro fuel
  induction fuel with
  | zero => intro n k hf; omega
  | succ f ih =>
    intro n k hf hk hn
    rw [natCharsFuel]
    by_cases h10 : n < 10
    · rw [if_pos h10]
      simp only [List.length_cons, List.length_nil]
      omega
    · rw [if_neg h10]
      have hk1 : 0 < k - 1 := by
        by_contra hc
        have hk1' : k = 1 := by omega
        subst hk1'
        rw [pow_one] at hn
        exact h10 hn
      have hdiv : n / 10 < 10 ^ (k - 1) := by
        rw [Nat.div_lt_iff_lt_mul (by norm_num)]
        have : 10 ^ (k - 1) * 10 = 10 ^ k := by
          rw [← pow_succ]
          congr 1
          omega
        omega
      have hfl : n / 10 < f := by
        have h1 : n / 10 < n := Nat.div_lt_self (by omega) (by omega)
        omega
      have := ih (n / 10) (k - 1) hfl hk1 hdiv
      simp only [List.length_append, List.length_cons, List.length_nil]
      omega

theorem natChars_length_le (k : Nat) (hk : 0 < k) :
    ∀ n, n < 10 ^ k → (natChars n).length ≤ k := by
  intro n hn
  exact natCharsFuel_length_le (n + 1) n k (by omega) hk hn

theorem group3Fuel_length_le : ∀ (fuel : Nat) (l : List Char),
    3 * (group3Fuel fuel l).length ≤ 4 * l.length := by
  intro fuel
  induction fuel with
  | zero => intro l; simp [group3Fuel]; omega
  | succ n ih =>
    intro l
    rw [group3Fuel]
    by_cases h3 : l.length ≤ 3
    · rw [if_pos h3]; omega
    · rw [if_neg h3]
      have hrec := ih (l.drop 3)
      simp only [List.length_append, List.length_take, List.length_cons,
        List.length_drop] at *
      omega

theorem commaChars_length_le (n k : Nat) (hk : 0 < k) (hn : n < 10 ^ k) :
    3 * (commaChars n).length ≤ 4 * k := by
  have h1 := natChars_length_le k hk n hn
  have h2 := group3Fuel_length_le (natChars n).reverse.length (natChars n).reverse
  simp only [commaChars, group3, List.length_reverse] at *
  omega

theorem rhe_le_floor_add_one (q : ℚ) : rhe q ≤ ⌊q⌋ + 1 := by
  simp only [rhe]
  split
  · omega
  · split
    · omega
    · split <;> omega

theorem rhe_toNat_le (q : ℚ) (B : Nat) (h : q ≤ (B : ℚ)) : (rhe q).toNat ≤ B + 1 := by
  have h1 : ⌊q⌋ ≤ B := by
    have := Int.floor_le_floor h
    simpa using this
  have h2 := rhe_le_floor_add_one q
  omega

theorem pyFormatDot0_length_le (q : ℚ) (B k : Nat) (hq : q ≤ (B : ℚ))
    (hB : B + 1 < 10 ^ k) (hk : 0 < k) : (pyFormatDot0 q).length ≤ k := by
  have h1 := rhe_toNat_le q B hq
  exact natChars_length_le k hk _ (by omega)

theorem pyFormatDot1_length_le (q : ℚ) (B k : Nat) (hq : q ≤ (B : ℚ))
    (hB : B < 10 ^ k) (hk : 0 < k) : (pyFormatDot1 q).length ≤ k + 2 := by
  have h10 : q * 10 ≤ ((10 * B : Nat) : ℚ) := by
    push_cast
    nlinarith
  have h1 := rhe_toNat_le (q * 10) (10 * B) h10
  have h2 : (rhe (q * 10)).toNat / 10 < 10 ^ k := by
    have : (rhe (q * 10)).toNat / 10 ≤ (10 * B + 1) / 10 := Nat.div_le_div_right h1
    have hB10 : (10 * B + 1) / 10 = B := by omega
    omega
  have h3 := natChars_length_le k hk _ h2
  simp only [pyFormatDot1, List.length_append, List.length_cons, List.length_nil]
  omega

/-! ### Lemmas about the seen set and the polling loop -/

theorem compact_seen_length_le (s : List String) : (compact_seen s).length ≤ 10000 := by
  unfold compact_seen
  split
  · simp only [List.length_drop]
    omega
  · omega

theorem compact_seen_of_le (s : List String) (h : s.length ≤ 10000) : compact_seen s = s := by
  unfold compact_seen
  rw [if_neg (by omega)]

theorem find_loop_seen_suffix (th : ℚ) (lk : String → Option MarketDict) :
    ∀ (l : List TradeDict) (seen : List String),
      ∃ ext, (find_loop th lk l seen).2 = seen ++ ext := by
  intro l
  induction l with
  | nil => intro seen; exact ⟨[], by simp [find_loop]⟩
  | cons d rest ih =>
    intro seen
    by_cases hmem : (Trade.ofDict d).trade_id ∈ seen
    · obtain ⟨ext, hext⟩ := ih seen
      exact ⟨ext, by simp only [find_loop, if_pos hmem]; exact hext⟩
    · obtain ⟨ext, hext⟩ := ih (seen ++ [(Trade.ofDict d).trade_id])
      refine ⟨[(Trade.ofDict d).trade_id] ++ ext, ?_⟩
      simp only [find_loop, if_neg hmem]
      rw [hext]
      simp [List.append_assoc]

theorem find_loop_seen_length (th : ℚ) (lk : String → Option MarketDict) :
    ∀ (l : List TradeDict) (seen : List String),
      (find_loop th lk l seen).2.length ≤ seen.length + l.length := by
  intro l
  induction l with
  | nil => intro seen; simp [find_loop]
  | cons d rest ih =>
    intro seen
    by_cases hmem : (Trade.ofDict d).trade_id ∈ seen
    · simp only [find_loop, if_pos hmem, List.length_cons]
      have := ih seen
      omega
    · simp only [find_loop, if_neg hmem, List.length_cons]
      have := ih (seen ++ [(Trade.ofDict d).trade_id])
      simp only [List.length_append, List.length_cons, List.length_nil] at this
      omega

theorem find_loop_out_mem_seen (th : ℚ) (lk : String → Option MarketDict) :
    ∀ (l : List TradeDict) (seen : List String) (p : Trade × MarketDict),
      p ∈ (find_loop th lk l seen).1 → p.1.trade_id ∈ (find_loop th lk l seen).2 := by
  intro l
  induction l with
  | nil => intro seen p hp; simp [find_loop] at hp
  | cons d rest ih =>
    intro seen p hp
    by_cases hmem : (Trade.ofDict d).trade_id ∈ seen
    · simp only [find_loop, if_pos hmem] at hp ⊢
      exact ih seen p hp
    · simp only [find_loop, if_neg hmem] at hp ⊢
      obtain ⟨ext, hext⟩ :=
        find_loop_seen_suffix th lk rest (seen ++ [(Trade.ofDict d).trade_id])
      have hmem_tid : (Trade.ofDict d).trade_id ∈
          (find_loop th lk rest (seen ++ [(Trade.ofDict d).trade_id])).2 := by
        rw [hext]
        simp
      by_cases hw : (Trade.ofDict d).is_whale th = true
      · rw [if_pos hw] at hp
        cases hlk : lk (Trade.ofDict d).ticker with
        | none =>
          rw [hlk] at hp
          exact ih _ p hp
        | some mk =>
          rw [hlk] at hp
          rcases List.mem_cons.mp hp with heq | htail
          · subst heq
            exact hmem_tid
          · exact ih _ p htail
      · rw [if_neg hw] at hp
        exact ih _ p hp

theorem find_loop_out_not_mem (th : ℚ) (lk : String → Option MarketDict) :
    ∀ (l : List TradeDict) (seen : List String) (p : Trade × MarketDict),
      p ∈ (find_loop th lk l seen).1 → p.1.trade_id ∉ seen := by
  intro l
  induction l with
  | nil => intro seen p hp; simp [find_loop] at hp
  | cons d rest ih =>
    intro seen p hp
    by_cases hmem : (Trade.ofDict d).trade_id ∈ seen
    · simp only [find_loop, if_pos hmem] at hp
      exact ih seen p hp
    · simp only [find_loop, if_neg hmem] at hp
      have htail_not : ∀ q : Trade × MarketDict,
          q ∈ (find_loop th lk rest (seen ++ [(Trade.ofDict d).trade_id])).1 →
          q.1.trade_id ∉ seen := by
        intro q hq
        have := ih (seen ++ [(Trade.ofDict d).trade_id]) q hq
        intro hin
        exact this (List.mem_append_left _ hin)
      by_cases hw : (Trade.ofDict d).is_whale th = true
      · rw [if_pos hw] at hp
        cases hlk : lk (Trade.ofDict d).ticker with
        | none =>
          rw [hlk] at hp
          exact htail_not p hp
        | some mk =>
          rw [hlk] at hp
          rcases List.mem_cons.mp hp with heq | htail
          · subst heq
            exact hmem
          · exact htail_not p htail
      · rw [if_neg hw] at hp
        exact htail_not p hp

theorem find_new_whale_trades_fst (th : ℚ) (lk : String → Option MarketDict)
    (l : List TradeDict) (seen : List String) :
    (find_new_whale_trades th lk l seen).1 = (find_loop th lk l seen).1 := rfl

theorem find_new_whale_trades_snd (th : ℚ) (lk : String → Option MarketDict)
    (l : List TradeDict) (seen : List String) :
    (find_new_whale_trades th lk l seen).2 = compact_seen (find_loop th lk l seen).2 := rfl

/-! ### Lemmas about the tweet formatter -/

theorem format_currency_length_le (a : ℚ) (ha : a ≤ 100000000) :
    (format_currency a).length ≤ 7 := by
  unfold format_currency
  split
  · rename_i h1
    have hq : a / 1000000 ≤ ((100 : Nat) : ℚ) := by
      rw [div_le_iff (by norm_num)]
      push_cast
      linarith
    have hd := pyFormatDot1_length_le (a / 1000000) 100 3 hq (by norm_num) (by norm_num)
    simp only [List.length_cons, List.length_append, List.length_nil]
    omega
  · split
    · rename_i h1 h2
      have hq : a / 1000 ≤ ((1000 : Nat) : ℚ) := by
        rw [div_le_iff (by norm_num)]
        push_cast
        linarith
      have hd := pyFormatDot0_length_le (a / 1000) 1000 4 hq (by norm_num) (by norm_num)
      simp only [List.length_cons, List.length_append, List.length_nil]
      omega
    · rename_i h1 h2
      have hq : a ≤ ((1000 : Nat) : ℚ) := by push_cast; linarith
      have hd := pyFormatDot0_length_le a 1000 4 hq (by norm_num) (by norm_num)
      simp only [List.length_cons]
      omega

theorem truncation_bound (title tweet compact : List Char)
    (hocc : ∃ s u, s ++ title ++ u = tweet) (hc : compact.length ≤ 280) :
    (if 280 < tweet.length then
      if 20 < (title.length : ℤ) - ((tweet.length : ℤ) - 280) - 3 then
        pyReplace title
          (title.take ((title.length : ℤ) - ((tweet.length : ℤ) - 280) - 3).toNat
            ++ "...".toList)
          tweet
      else compact
    else tweet).length ≤ 280 := by
  by_cases hlen : 280 < tweet.length
  · rw [if_pos hlen]
    by_cases hm : 20 < (title.length : ℤ) - ((tweet.length : ℤ) - 280) - 3
    · rw [if_pos hm]
      have htoNat : ((title.length : ℤ) - ((tweet.length : ℤ) - 280) - 3).toNat =
          title.length - (tweet.length - 280) - 3 := by omega
      have hdots : "...".toList.length = 3 := by decide
      have htrunc :
          (title.take ((title.length : ℤ) - ((tweet.length : ℤ) - 280) - 3).toNat
            ++ "...".toList).length = title.length - (tweet.length - 280) := by
        rw [List.length_append, List.length_take, htoNat, hdots]
        omega
      have hp : title ≠ [] := by
        rw [← List.length_pos]
        omega
      have hr : (title.take ((title.length : ℤ) - ((tweet.length : ℤ) - 280) - 3).toNat
          ++ "...".toList).length ≤ title.length := by
        rw [htrunc]; omega
      have hrep := pyReplace_length_occ title _ tweet hp hr hocc
      rw [htrunc] at hrep
      omega
    · rw [if_neg hm]
      exact hc
  · rw [if_neg hlen]
    omega

theorem pyJoin_nine_occ (nl a e g i v ttl : List Char) :
    ∃ s u, s ++ ttl ++ u = pyJoin nl [a, [], v ++ ttl, [], e, [], g, [], i] := by
  refine ⟨a ++ nl ++ nl ++ v,
    nl ++ nl ++ e ++ nl ++ nl ++ g ++ nl ++ nl ++ i, ?_⟩
  simp [pyJoin, List.append_assoc]

theorem pyJoin_four_length (nl p1 p2 p3 p4 : List Char) :
    (pyJoin nl [p1, p2, p3, p4]).length =
      p1.length + p2.length + p3.length + p4.length + 3 * nl.length := by
  simp only [pyJoin, List.length_append]
  omega

theorem Trade.ofDict_side (d : TradeDict) : (Trade.ofDict d).side = d.side?.getD "" := rfl

theorem Trade.ofDict_count (d : TradeDict) : (Trade.ofDict d).count = d.count?.getD 0 := rfl

theorem Trade.ofDict_yes_price (d : TradeDict) :
    (Trade.ofDict d).yes_price = d.yes_price?.getD 0 := rfl

theorem Trade.ofDict_no_price (d : TradeDict) :
    (Trade.ofDict d).no_price = d.no_price?.getD 0 := rfl

theorem Trade.ofDict_ticker (d : TradeDict) :
    (Trade.ofDict d).ticker = d.ticker?.getD "" := rfl

theorem Trade.ofDict_id (d : TradeDict) :
    (Trade.ofDict d).trade_id = d.trade_id?.getD "" := rfl

theorem Trade.ofDict_value_cents (d : TradeDict) :
    (Trade.ofDict d).value_cents =
      if d.side?.getD "" = "yes" then (d.count?.getD 0) * (d.yes_price?.getD 0)
      else (d.count?.getD 0) * (d.no_price?.getD 0) := rfl

theorem Trade.ofDict_value_dollars (d : TradeDict) :
    (Trade.ofDict d).value_dollars = ((Trade.ofDict d).value_cents : ℚ) / 100 := rfl

theorem Trade.ofDict_value_dollars_le (d : TradeDict)
    (hc : d.count?.getD 0 ≤ 99999999)
    (hy : d.yes_price?.getD 0 ≤ 100) (hn : d.no_price?.getD 0 ≤ 100) :
    (Trade.ofDict d).value_dollars ≤ 100000000 := by
  have hvc : (Trade.ofDict d).value_cents ≤ 9999999900 := by
    rw [Trade.ofDict_value_cents]
    split
    · exact le_trans (Nat.mul_le_mul hc hy) (by norm_num)
    · exact le_trans (Nat.mul_le_mul hc hn) (by norm_num)
  rw [Trade.ofDict_value_dollars, div_le_iff (by norm_num)]
  calc ((Trade.ofDict d).value_cents : ℚ) ≤ (9999999900 : ℚ) := by exact_mod_cast hvc
    _ ≤ 100000000 * 100 := by norm_num

/-- C5 (amended claim): for a trade record with a binary side, prices in
the documented 0-100 cent range and at most 99999999 contracts, and a
market record with title up to 500 characters and ticker up to 50
characters, the formatted whale tweet never exceeds 280 characters. -/
theorem format_whale_tweet_length_bound (d : TradeDict) (market : MarketDict)
    (hside : d.side?.getD "" = "yes" ∨ d.side?.getD "" = "no")
    (hcount : d.count?.getD 0 ≤ 99999999)
    (hyes : d.yes_price?.getD 0 ≤ 100)
    (hno : d.no_price?.getD 0 ≤ 100)
    (hticker : (d.ticker?.getD "").length ≤ 50)
    (htitle : (market.title?.getD "Unknown Market").length ≤ 500) :
    (format_whale_tweet (Trade.ofDict d) market).length ≤ 280 := by
  have hv : (format_currency (Trade.ofDict d).value_dollars).length ≤ 7 :=
    format_currency_length_le _ (Trade.ofDict_value_dollars_le d hcount hyes hno)
  have hcontracts : (commaChars (Trade.ofDict d).count).length ≤ 10 := by
    have h8 : (Trade.ofDict d).count < 10 ^ 8 := by
      rw [Trade.ofDict_count]; omega
    have := commaChars_length_le _ 8 (by norm_num) h8
    omega
  have hsideLen : (pyUpper (Trade.ofDict d).side.toList).length ≤ 3 := by
    simp only [pyUpper, List.length_map]
    rw [Trade.ofDict_side]
    rcases hside with h | h <;> rw [h] <;> decide
  have hprice : (if (Trade.ofDict d).side = "yes" then (Trade.ofDict d).yes_price
      else (Trade.ofDict d).no_price) ≤ 100 := by
    rw [Trade.ofDict_side, Trade.ofDict_yes_price, Trade.ofDict_no_price]
    split
    · exact hyes
    · exact hno
  have hpc : (natChars (if (Trade.ofDict d).side = "yes" then (Trade.ofDict d).yes_price
      else (Trade.ofDict d).no_price)).length ≤ 3 :=
    natChars_length_le 3 (by norm_num) _ (by omega)
  have hurl : (get_market_url (Trade.ofDict d).ticker.toList).length ≤ 77 := by
    unfold get_market_url
    rw [List.length_append]
    have h27 : "https://kalshi.com/?search=".toList.length = 27 := by decide
    have h50 : (Trade.ofDict d).ticker.toList.length ≤ 50 := by
      rw [Trade.ofDict_ticker]
      exact hticker
    omega
  have h1 : "🐋 ".toList.length = 2 := by decide
  have h2 : " whale trade".toList.length = 12 := by decide
  have h3 : " contracts @ ".toList.length = 13 := by decide
  have h4 : "@Kalshi @KalshiEco".toList.length = 18 := by decide
  simp only [format_whale_tweet]
  apply truncation_bound
  · exact pyJoin_nine_occ _ _ _ _ _ _ _
  · rw [pyJoin_four_length]
    simp only [List.length_append, List.length_cons, List.length_nil]
    omega

/-! ### Claim theorems -/

unseal Rat.mul Rat.inv Rat.add Rat.sub in
/-- C1: for every trade record, the constructed Trade has value_cents equal
to count times yes_price when side is "yes" and count times no_price
otherwise, and value_dollars equal to value_cents divided by 100; the
trade (FED-24DEC, yes, 2000 contracts, yes_price 75) has value_dollars
1500 and is not a whale at threshold 100000. -/
theorem trade_value_model :
    (∀ d : TradeDict,
      (Trade.ofDict d).value_cents =
        (if (Trade.ofDict d).side = "yes"
         then (Trade.ofDict d).count * (Trade.ofDict d).yes_price
         else (Trade.ofDict d).count * (Trade.ofDict d).no_price) ∧
      (Trade.ofDict d).value_dollars = ((Trade.ofDict d).value_cents : ℚ) / 100) ∧
    (Trade.ofDict fed_trade_data).value_dollars = 1500 ∧
    (Trade.ofDict fed_trade_data).is_whale 100000 = false := by
  refine ⟨fun d => ⟨rfl, rfl⟩, by decide, by decide⟩

/-- C2: is_whale is true exactly when value_dollars meets the threshold
(inclusive: a trade at the threshold is a whale, one at threshold minus
one cent is not), is antitone in the threshold, and monotone in
value_dollars. -/
theorem is_whale_spec (t : Trade) (th : ℚ) :
    (t.is_whale th = true ↔ th ≤ t.value_dollars) ∧
    (t.value_dollars = th → t.is_whale th = true) ∧
    (t.value_dollars = th - 1 / 100 → t.is_whale th = false) ∧
    (∀ th' : ℚ, th' ≤ th → t.is_whale th = true → t.is_whale th' = true) ∧
    (∀ t' : Trade, t.value_dollars ≤ t'.value_dollars → t.is_whale th = true →
      t'.is_whale th = true) := by
  unfold Trade.is_whale
  refine ⟨by simp, ?_, ?_, ?_, ?_⟩
  · intro h
    simp [h]
  · intro h
    rw [h]
    simp only [decide_eq_false_iff_not, not_le]
    linarith
  · intro th' hle h
    simp only [decide_eq_true_eq] at *
    linarith
  · intro t' hle h
    simp only [decide_eq_true_eq] at *
    linarith

unseal Rat.mul Rat.inv Rat.add Rat.sub in
/-- C2 witness: the FED-24DEC trade (value 1500) is a whale at thresholds
1500 and 1000, and not at 1500.01. -/
theorem is_whale_spec_witness :
    (Trade.ofDict fed_trade_data).is_whale 1500 = true ∧
    (Trade.ofDict fed_trade_data).is_whale (1500 + 1 / 100) = false ∧
    (Trade.ofDict fed_trade_data).is_whale 1000 = true := by
  have h1 := (is_whale_spec (Trade.ofDict fed_trade_data) 1500).2.1 (by decide)
  refine ⟨h1, ?_, ?_⟩
  · exact (is_whale_spec (Trade.ofDict fed_trade_data) (1500 + 1 / 100)).2.2.1 (by decide)
  · exact (is_whale_spec (Trade.ofDict fed_trade_data) 1500).2.2.2.1 1000 (by decide) h1

unseal Rat.mul Rat.inv Rat.add Rat.sub in
/-- C4 counterexample: format_currency at 1250000 is not the claimed
"$1.3M" (CPython %.1f formatting rounds the exact tie 1.25 half to even,
giving "$1.2M"). -/
theorem format_currency_claim_cex : format_currency 1250000 ≠ "$1.3M".toList := by
  decide

unseal Rat.mul Rat.inv Rat.add Rat.sub in
/-- C4 (amended): amounts at or above one million render as a dollar sign,
an integer part, one decimal digit and "M"; amounts in the thousands
render as a dollar sign, an integer and "K"; smaller amounts as a dollar
sign and an integer; format_currency(1250000) is "$1.2M" (the 1.25 tie
rounds to even), format_currency(125000) is "$125K", and the 999999
boundary renders as "$1000K". -/
theorem format_currency_spec :
    (∀ a : ℚ, 1000000 ≤ a → ∃ x y, y < 10 ∧
      format_currency a = '$' :: ((natChars x ++ '.' :: [Nat.digitChar y]) ++ ['M'])) ∧
    (∀ a : ℚ, 1000 ≤ a → a < 1000000 → ∃ x,
      format_currency a = '$' :: (natChars x ++ ['K'])) ∧
    (∀ a : ℚ, a < 1000 → ∃ x, format_currency a = '$' :: natChars x) ∧
    format_currency 1250000 = "$1.2M".toList ∧
    format_currency 125000 = "$125K".toList ∧
    format_currency 999999 = "$1000K".toList := by
  refine ⟨?_, ?_, ?_, ?_, ?_, ?_⟩
  · intro a ha
    refine ⟨(rhe (a / 1000000 * 10)).toNat / 10, (rhe (a / 1000000 * 10)).toNat % 10,
      Nat.mod_lt _ (by norm_num), ?_⟩
    unfold format_currency
    rw [if_pos ha]
    rfl
  · intro a ha hlt
    refine ⟨(rhe (a / 1000)).toNat, ?_⟩
    unfold format_currency
    rw [if_neg (by linarith), if_pos ha]
    rfl
  · intro a hlt
    refine ⟨(rhe a).toNat, ?_⟩
    unfold format_currency
    rw [if_neg (by linarith), if_neg (by linarith)]
    rfl
  · decide
  · decide
  · decide

unseal Rat.mul Rat.inv Rat.add Rat.sub in
/-- C4 witness: the three shape clauses instantiated at concrete amounts
2500000, 2000 and 500. -/
theorem format_currency_spec_witness :
    (∃ x y, y < 10 ∧
      format_currency 2500000 = '$' :: ((natChars x ++ '.' :: [Nat.digitChar y]) ++ ['M'])) ∧
    (∃ x, format_currency 2000 = '$' :: (natChars x ++ ['K'])) ∧
    (∃ x, format_currency 500 = '$' :: natChars x) := by
  refine ⟨format_currency_spec.1 2500000 (by decide),
    format_currency_spec.2.1 2000 (by decide) (by decide),
    format_currency_spec.2.2.1 500 (by decide)⟩

/-- C9: the WebSocket normalizer stores the side under the key taker_side
and produces no key side, so every Trade built from a streaming payload
has side equal to the empty string and its value_cents is always
count times no_price, regardless of the reported taker_side. -/
theorem ws_normalizer_side_mismatch :
    ∀ (iso : Nat → String) (m : WsTradeMsg),
      (normalize_ws_trade iso m).taker_side? = some m.taker_side ∧
      (normalize_ws_trade iso m).side? = none ∧
      (Trade.ofDict (normalize_ws_trade iso m)).side = "" ∧
      (Trade.ofDict (normalize_ws_trade iso m)).value_cents = m.count * m.no_price := by
  intro iso m
  refine ⟨rfl, rfl, rfl, ?_⟩
  rw [Trade.ofDict_value_cents]
  rfl

/-- C10: post_tweet sends text of at most 280 characters unchanged, and
cuts longer text to its first 277 characters plus "...", which has length
exactly 280. -/
theorem post_tweet_truncation (text : List Char) :
    (text.length ≤ 280 → post_tweet_text text = text) ∧
    (280 < text.length →
      post_tweet_text text = text.take 277 ++ "...".toList ∧
      (post_tweet_text text).length = 280) := by
  constructor
  · intro h
    unfold post_tweet_text
    rw [if_neg (by omega)]
  · intro h
    unfold post_tweet_text
    rw [if_pos h]
    refine ⟨rfl, ?_⟩
    rw [List.length_append, List.length_take]
    have hd : "...".toList.length = 3 := by decide
    omega

/-- C10 witness: a 5-character text is sent unchanged and a 300-character
text is sent at exactly 280 characters. -/
theorem post_tweet_truncation_witness :
    post_tweet_text "hello".toList = "hello".toList ∧
    (post_tweet_text (List.replicate 300 'a')).length = 280 := by
  constructor
  · exact (post_tweet_truncation "hello".toList).1 (by decide)
  · exact ((post_tweet_truncation (List.replicate 300 'a')).2
      (by rw [List.length_replicate]; omega)).2

/-- C3: an already-seen trade_id never produces a detection; over two
polling fetches in one session (bounded so that no compaction intervenes)
the same trade_id appears in at most one result list; and in streaming
mode handle_trade returns with the state unchanged and no publication
when the incoming trade_id is already in the seen set. -/
theorem dedup_at_most_once (th : ℚ) (lookup : String → Option MarketDict) :
    (∀ (l : List TradeDict) (seen : List String) (p : Trade × MarketDict),
      p ∈ (find_new_whale_trades th lookup l seen).1 → p.1.trade_id ∉ seen) ∧
    (∀ (l1 l2 : List TradeDict) (seen : List String),
      seen.length + l1.length ≤ 10000 →
      ∀ p1 ∈ (find_new_whale_trades th lookup l1 seen).1,
      ∀ p2 ∈ (find_new_whale_trades th lookup l2
          (find_new_whale_trades th lookup l1 seen).2).1,
        p1.1.trade_id ≠ p2.1.trade_id) ∧
    (∀ (seen : List String) (d : TradeDict),
      d.trade_id?.getD "" ∈ seen → handle_trade th lookup seen d = (seen, none)) := by
  refine ⟨?_, ?_, ?_⟩
  · intro l seen p hp
    rw [find_new_whale_trades_fst] at hp
    exact find_loop_out_not_mem th lookup l seen p hp
  · intro l1 l2 seen hlen p1 hp1 p2 hp2
    have hs1len : (find_loop th lookup l1 seen).2.length ≤ 10000 := by
      have := find_loop_seen_length th lookup l1 seen
      omega
    have hseq : (find_new_whale_trades th lookup l1 seen).2 =
        (find_loop th lookup l1 seen).2 := by
      rw [find_new_whale_trades_snd, compact_seen_of_le _ hs1len]
    have hmem1 : p1.1.trade_id ∈ (find_new_whale_trades th lookup l1 seen).2 := by
      rw [hseq]
      rw [find_new_whale_trades_fst] at hp1
      exact find_loop_out_mem_seen th lookup l1 seen p1 hp1
    have hnot2 : p2.1.trade_id ∉ (find_new_whale_trades th lookup l1 seen).2 := by
      rw [find_new_whale_trades_fst] at hp2
      exact find_loop_out_not_mem th lookup l2 _ p2 hp2
    intro heq
    rw [heq] at hmem1
    exact hnot2 hmem1
  · intro seen d hmem
    simp only [handle_trade]
    rw [if_pos hmem]

/-- C3 witness: a concrete whale trade fetched twice in a row is reported
at most once, and a streaming duplicate is dropped with the state
unchanged. -/
theorem dedup_at_most_once_witness :
    (∀ p1 ∈ (find_new_whale_trades 100000 (fun _ => some fed_market)
        [whale_trade_data] []).1,
     ∀ p2 ∈ (find_new_whale_trades 100000 (fun _ => some fed_market) [whale_trade_data]
        (find_new_whale_trades 100000 (fun _ => some fed_market)
          [whale_trade_data] []).2).1,
      p1.1.trade_id ≠ p2.1.trade_id) ∧
    handle_trade 100000 (fun _ => some fed_market) ["w1"] whale_trade_data =
      (["w1"], none) := by
  constructor
  · exact (dedup_at_most_once 100000 (fun _ => some fed_market)).2.1
      [whale_trade_data] [whale_trade_data] [] (by decide)
  · exact (dedup_at_most_once 100000 (fun _ => some fed_market)).2.2 ["w1"]
      whale_trade_data (by decide)

/-- C6: when the seen set exceeds 10000 entries the compaction replaces it
by a 5000-element subset of itself, and after every completed call to
find_new_whale_trades (unconditionally) or handle_trade (from a state
within the bound, which every reachable state is) the seen set holds at
most 10000 entries. -/
theorem seen_set_bounded (th : ℚ) (lookup : String → Option MarketDict) :
    (∀ s : List String, s.Nodup → 10000 < s.length →
      (compact_seen s).length = 5000 ∧ List.Sublist (compact_seen s) s ∧
      (compact_seen s).Nodup) ∧
    (∀ (l : List TradeDict) (seen : List String),
      (find_new_whale_trades th lookup l seen).2.length ≤ 10000) ∧
    (∀ (seen : List String) (d : TradeDict), seen.length ≤ 10000 →
      (handle_trade th lookup seen d).1.length ≤ 10000) := by
  refine ⟨?_, ?_, ?_⟩
  · intro s hnd hlen
    have hdrop : compact_seen s = s.drop (s.length - 5000) := by
      unfold compact_seen
      rw [if_pos hlen]
    refine ⟨?_, ?_, ?_⟩
    · rw [hdrop, List.length_drop]
      omega
    · rw [hdrop]
      exact List.drop_sublist _ _
    · rw [hdrop]
      exact hnd.sublist (List.drop_sublist _ _)
  · intro l seen
    rw [find_new_whale_trades_snd]
    exact compact_seen_length_le _
  · intro seen d hlen
    simp only [handle_trade]
    by_cases hmem : d.trade_id?.getD "" ∈ seen
    · rw [if_pos hmem]
      exact hlen
    · rw [if_neg hmem]
      exact compact_seen_length_le _

/-- C6 witness: compaction of a concrete 10001-element nodup seen set, and
the bounds at concrete small states. -/
theorem seen_set_bounded_witness :
    ((compact_seen big_seen).length = 5000 ∧
      List.Sublist (compact_seen big_seen) big_seen ∧
      (compact_seen big_seen).Nodup) ∧
    (find_new_whale_trades 100000 (fun _ => some fed_market) [] []).2.length ≤ 10000 ∧
    (handle_trade 100000 (fun _ => some fed_market) [] whale_trade_data).1.length
      ≤ 10000 := by
  have hinj : Function.Injective (fun n => String.mk (List.replicate n 'a')) := by
    intro a b hab
    have h1 := congrArg (fun s => s.data.length) hab
    simpa using h1
  have hnodup : big_seen.Nodup := by
    unfold big_seen
    exact (List.nodup_range 10001).map hinj
  have hlen : big_seen.length = 10001 := by
    unfold big_seen
    rw [List.length_map, List.length_range]
  refine ⟨(seen_set_bounded 100000 (fun _ => some fed_market)).1 big_seen hnodup
      (by omega),
    (seen_set_bounded 100000 (fun _ => some fed_market)).2.1 [] [],
    (seen_set_bounded 100000 (fun _ => some fed_market)).2.2 [] whale_trade_data
      (by simp)⟩

/-- C7: the reconnect delay starts at 1; after n consecutive failed
connect attempts the stored reconnect_delay equals min(2^n, 60); a single
successful connect resets it to 1. -/
theorem reconnect_backoff :
    initial_reconnect_delay = 1 ∧
    (∀ n : Nat, delay_after_failures n = min (2 ^ n) 60) ∧
    (∀ d : Nat, success_update d = 1) := by
  refine ⟨rfl, ?_, fun _ => rfl⟩
  intro n
  induction n with
  | zero => rfl
  | succ n ih =>
    rw [delay_after_failures, ih]
    unfold fail_update max_reconnect_delay
    rcases le_or_lt (2 ^ n) 60 with h | h
    · rw [Nat.min_eq_left h, pow_succ]
    · have h2 : 60 ≤ 2 ^ (n + 1) := by
        calc (60 : ℕ) ≤ 2 ^ n := le_of_lt h
          _ ≤ 2 ^ (n + 1) := Nat.pow_le_pow_right (by norm_num) (by omega)
      rw [Nat.min_eq_right (le_of_lt h), Nat.min_eq_right h2]
      decide

/-- C8 counterexample: a 200 response whose body is the empty JSON object
is a success for _make_request, yet get_markets returns None instead of
the claimed empty list (the Python code tests the truthiness of the
response, and an empty dict is falsy). -/
theorem get_markets_empty_body_cex :
    get_markets (HttpOutcome.response 200 (JVal.obj [])) ≠ some (JVal.arr []) := by
  intro h
  have h0 : get_markets (HttpOutcome.response 200 (JVal.obj [])) = none := rfl
  rw [h0] at h
  exact Option.noConfusion h

/-- C8 (amended): any non-200 status or transport exception makes
_make_request return None, in which case all four read-only endpoint
methods return None rather than raising; on a 200 response with a truthy
(non-empty) body, get_markets and get_trades return the corresponding
list, defaulting to the empty list when the key is absent. -/
theorem client_error_handling :
    (∀ (s : Nat) (b : JVal), s ≠ 200 → make_request (.response s b) = none) ∧
    (∀ e : String, make_request (.exn e) = none) ∧
    (∀ o : HttpOutcome, make_request o = none →
      get_markets o = none ∧ get_market o = none ∧ get_trades o = none ∧
      get_orderbook o = none) ∧
    (∀ (o : HttpOutcome) (b : JVal), make_request o = some b → b.truthy = true →
      get_markets o = some (b.getD "markets" (.arr [])) ∧
      get_trades o = some (b.getD "trades" (.arr []))) := by
  refine ⟨?_, ?_, ?_, ?_⟩
  · intro s b hs
    simp only [make_request]
    rw [if_neg hs]
  · intro e
    rfl
  · intro o h
    unfold get_markets get_market get_trades get_orderbook
    rw [h]
    exact ⟨rfl, rfl, rfl, rfl⟩
  · intro o b h ht
    unfold get_markets get_trades
    rw [h]
    refine ⟨?_, ?_⟩ <;> simp [ht]

/-- C8 witness: a transport exception yields None, and a 200 response with
a non-empty body yields the markets list (here absent, so the empty-list
default) for both list endpoints. -/
theorem client_error_handling_witness :
    get_markets (HttpOutcome.exn "boom") = none ∧
    get_markets (HttpOutcome.response 200 (JVal.obj [("status", JVal.str "ok")])) =
      some (JVal.arr []) ∧
    get_trades (HttpOutcome.response 200 (JVal.obj [("status", JVal.str "ok")])) =
      some (JVal.arr []) := by
  have h := client_error_handling.2.2.2
    (HttpOutcome.response 200 (JVal.obj [("status", JVal.str "ok")]))
    (JVal.obj [("status", JVal.str "ok")]) rfl rfl
  exact ⟨(client_error_handling.2.2.1 (HttpOutcome.exn "boom") rfl).1,
    h.1.trans rfl, h.2.trans rfl⟩

set_option maxRecDepth 200000 in
unseal Rat.mul Rat.inv Rat.add Rat.sub in
/-- C5 counterexample: a trade record satisfying the claim's bounds (title
of length 0, ticker of length 50) whose huge contract count makes even
the compact fallback rendering exceed 280 characters. -/
theorem format_whale_tweet_claim_cex :
    (big_count_trade_data.ticker?.getD "").length ≤ 50 ∧
    (empty_title_market.title?.getD "Unknown Market").length ≤ 500 ∧
    280 < (format_whale_tweet (Trade.ofDict big_count_trade_data)
      empty_title_market).length := by
  refine ⟨by decide, by decide, by decide⟩

unseal Rat.mul Rat.inv Rat.add Rat.sub in
/-- C5 witness: the amended bound applied to the concrete FED-24DEC trade
and a short market title. -/
theorem format_whale_tweet_length_bound_witness :
    (format_whale_tweet (Trade.ofDict fed_trade_data) fed_market).length ≤ 280 :=
  format_whale_tweet_length_bound fed_trade_data fed_market
    (Or.inl (by decide)) (by decide) (by decide) (by decide) (by decide) (by decide)
